import Mathlib

/-!
Verification development for the `tracing_sim` repository: a shallow
embedding, in Lean 4, of the simulator's node, the plugin wrapper, the
trace-propagating filter and the subtree-isomorphism matcher, together
with theorems settling the specification's claims about them.

Conventions of the embedding:
* petgraph `Graph<N, E>` becomes `PGraph N`: a list of node weights
  (node identity = insertion index) and a list of directed edges
  (source index, target index).  Edge weights in the source are `()`
  or the empty string throughout, so they are dropped.
* Rust panics (`unwrap`, `panic!`, failed `assert!`, indexing a missing
  map key) are modelled by `Option`/`Except` results, `none` / `.error`
  standing for the abort.
* `IndexMap<String, String>` becomes an association list kept in
  insertion order with unique keys (`idxInsert` overwrites in place,
  otherwise appends), exactly the behaviour of `IndexMap::insert`.
* The serde_json codec for `FerriedData` (whose module is not part of
  the sources at hand) is modelled as the identity: headers and the
  shared-data map carry the decoded `FerriedData` value directly, per
  the specification's round-trip law for the codec.
-/

namespace TracingSim

/-- Lookup in an insertion-ordered string map (IndexMap): first entry
with the key. -/
def idxLookup {α : Type} (m : List (String × α)) (k : String) : Option α :=
  match m.find? (fun e => e.1 = k) with
  | some e => some e.2
  | none => none

/-- `IndexMap::insert`: overwrite in place when the key is present,
append otherwise. -/
def idxInsert {α : Type} (m : List (String × α)) (k : String) (v : α) :
    List (String × α) :=
  if m.any (fun e => e.1 = k) then
    m.map (fun e => if e.1 = k then (k, v) else e)
  else
    m ++ [(k, v)]

/-- Insertion of an element into a sorted list, by a boolean `le`. -/
def sortedInsert {α : Type} (le : α → α → Bool) (x : α) : List α → List α
  | [] => [x]
  | y :: ys => if le x y then x :: y :: ys else y :: sortedInsert le x ys

/-- Insertion sort (models `Vec::sort_unstable`; for the total orders
used here the result agrees with any sort). -/
def insertionSort {α : Type} (le : α → α → Bool) : List α → List α
  | [] => []
  | x :: xs => sortedInsert le x (insertionSort le xs)

/-- `Vec::dedup`: remove consecutive duplicates. -/
def dedupConsec {α : Type} [DecidableEq α] : List α → List α
  | [] => []
  | [x] => [x]
  | x :: y :: xs => if x = y then dedupConsec (y :: xs) else x :: dedupConsec (y :: xs)

/-! ## The petgraph model -/

/-- A directed graph in the style of petgraph's `Graph`: node weights in
insertion order (a node's identity is its index) and a list of directed
edges between indices. -/
structure PGraph (α : Type) where
  nodes : List α
  edges : List (Nat × Nat)
deriving DecidableEq

namespace PGraph

/-- `add_node`: append; the new node's index is the old length. -/
def addNode {α : Type} (g : PGraph α) (w : α) : PGraph α :=
  ⟨g.nodes ++ [w], g.edges⟩

/-- `add_edge`: append a directed edge. -/
def addEdge {α : Type} (g : PGraph α) (a b : Nat) : PGraph α :=
  ⟨g.nodes, g.edges ++ [(a, b)]⟩

/-- `graph.neighbors(v)` (outgoing).  petgraph iterates a node's
adjacency most-recently-added first, hence the `reverse`. -/
def outNeighbors {α : Type} (g : PGraph α) (v : Nat) : List Nat :=
  ((g.edges.filter (fun e => e.1 = v)).map (fun e => e.2)).reverse

/-- `graph.neighbors_directed(v, Incoming)`, most-recently-added
first. -/
def inNeighbors {α : Type} (g : PGraph α) (v : Nat) : List Nat :=
  ((g.edges.filter (fun e => e.2 = v)).map (fun e => e.1)).reverse

/-- `node_indices()`. -/
def nodeIndices {α : Type} (g : PGraph α) : List Nat :=
  List.range g.nodes.length

/-- Well-formedness: every edge endpoint is a real node index (petgraph
guarantees this; `add_edge` with a stale index panics). -/
def WF {α : Type} (g : PGraph α) : Prop :=
  ∀ e ∈ g.edges, e.1 < g.nodes.length ∧ e.2 < g.nodes.length

instance {α : Type} (g : PGraph α) : Decidable (WF g) := by
  unfold WF; infer_instance

/-- `find_root` (iso.rs line 27 / graph_utils): the first node index with
no incoming edge; the source panics with "no root found" when there is
none. -/
def findRootE {α : Type} (g : PGraph α) : Except String Nat :=
  match (nodeIndices g).find? (fun v => (inNeighbors g v).length = 0) with
  | some v => Except.ok v
  | none => Except.error "no root found"

/-- Fuel-driven DFS postorder worker.  `visited` is the set of
discovered nodes (petgraph marks a node on discovery); a worklist entry
is expanded into its out-neighbors before being emitted.  With the fuel
supplied by `dfsPostOrder` the zero-fuel branch is unreachable. -/
def dfsPostAux {α : Type} (g : PGraph α) : Nat → List Nat → List Nat → List Nat × List Nat
  | 0, vis, _ => (vis, [])
  | _, vis, [] => (vis, [])
  | Nat.succ f, vis, v :: rest =>
    if vis.contains v then dfsPostAux g f vis rest
    else
      let sub := dfsPostAux g f (v :: vis) (outNeighbors g v)
      let subr := dfsPostAux g f sub.1 rest
      (subr.1, sub.2 ++ [v] ++ subr.2)

/-- `DfsPostOrder::new(g, start)` run to completion: the postorder
visit sequence from `start`. -/
def dfsPostOrder {α : Type} (g : PGraph α) (start : Nat) : List Nat :=
  (dfsPostAux g ((g.nodes.length + g.edges.length + 2) * (g.nodes.length + 2)) [] [start]).2

end PGraph

/-! ## iso.rs: the Shamir-style subtree matcher (over `Graph<String, String>`) -/

open PGraph

/-- `find_leaves` (iso.rs): postorder traversal from `node`, keeping the
nodes without out-neighbors. -/
def find_leaves (node : Nat) (g : PGraph String) : List Nat :=
  (dfsPostOrder g node).filter (fun v => (outNeighbors g v).length = 0)

/-- The table `S : (trace node, pattern node) → set of pattern nodes` of
the Shamir algorithm.  The source uses a `HashMap` keyed by exactly the
pairs of a G-node and an H-node, queried only at such pairs; it is
modelled as a total function, empty outside the populated keys. -/
abbrev SMap : Type := Nat × Nat → List Nat

/-- HashSet-style insert into an `SMap` entry. -/
def sInsert (s : SMap) (k : Nat × Nat) (x : Nat) : SMap :=
  fun k' => if k' = k then (if (s k).contains x then s k else s k ++ [x]) else s k'

/-- `initialize_s` (iso.rs lines 36-54): every entry starts empty; for
every trace leaf and pattern leaf, the pattern leaf's parents are
inserted.  `find_root` on either graph may panic ("no root found"). -/
def initS (gG gH : PGraph String) : Except String SMap :=
  let s0 : SMap := fun _ => []
  match findRootE gG with
  | Except.error e => Except.error e
  | Except.ok rootG =>
    match findRootE gH with
    | Except.error e => Except.error e
    | Except.ok rootH =>
      Except.ok ((find_leaves rootG gG).foldl (fun s leafG =>
        (find_leaves rootH gH).foldl (fun s leafH =>
          (inNeighbors gH leafH).foldl (fun s nb => sInsert s (leafG, leafH) nb) s) s) s0)

/-- `maximum_matching_size` (iso.rs lines 73-75): the source is a stub
that returns 0 for every input. -/
def maximum_matching_size (xSet ySet : List Nat) : Nat :=
  0

/-- Lines 107-117 of iso.rs: the loop over `i` removing `x_i` (only when
`i ≠ 0`, as in the source), comparing the stub matching size with
`x_i.len()`, inserting on equality, and early-returning `true` as soon
as `S[v,u]` contains `u`.  Returns the updated table and the found
flag. -/
def shamirInner (uNeighbors vChildren : List Nat) (node nodeH : Nat) :
    Nat → SMap → SMap × Bool
  | 0, s => (s, false)
  | Nat.succ k, s =>
    let i := uNeighbors.length - Nat.succ k
    let xI := if i ≠ 0 then uNeighbors.eraseIdx i else uNeighbors
    let mm := maximum_matching_size xI vChildren
    let s' := if mm = xI.length then sInsert s (node, nodeH) (uNeighbors.getD i 0) else s
    if (s' (node, nodeH)).contains nodeH then (s', true)
    else shamirInner uNeighbors vChildren node nodeH k s'

/-- Lines 87-119 of iso.rs: the loop over the pattern nodes `node_h`,
with the degree filter `|N(u)| ≤ |C(v)| + 1`.  The bipartite `edge_set`
built by the source feeds only commented-out code and is omitted. -/
def shamirOverH (gG gH : PGraph String) (node : Nat) :
    List Nat → SMap → SMap × Bool
  | [], s => (s, false)
  | nodeH :: hs, s =>
    let vChildren := outNeighbors gG node
    let uNeighbors := outNeighbors gH nodeH
    if uNeighbors.length ≤ vChildren.length + 1 then
      let r := shamirInner uNeighbors vChildren node nodeH uNeighbors.length s
      if r.2 then (r.1, true) else shamirOverH gG gH node hs r.1
    else shamirOverH gG gH node hs s

/-- Lines 84-120 of iso.rs: the postorder loop over the trace nodes. -/
def shamirOverG (gG gH : PGraph String) :
    List Nat → SMap → SMap × Bool
  | [], s => (s, false)
  | node :: ns, s =>
    let r := shamirOverH gG gH node (nodeIndices gH) s
    if r.2 then (r.1, true) else shamirOverG gG gH ns r.1

/-- `find_mapping_shamir` (iso.rs lines 77-124): initialize `S`, walk G
in postorder, and report whether the pattern root was ever inserted at
the pair under scrutiny.  `.error` models the `find_root` panic. -/
def find_mapping_shamir (gG gH : PGraph String) : Except String Bool :=
  match initS gG gH with
  | Except.error e => Except.error e
  | Except.ok s =>
    match findRootE gG with
    | Except.error e => Except.error e
    | Except.ok rootG =>
      Except.ok (shamirOverG gG gH (dfsPostOrder gG rootG) s).2

/-- The two-node chain `a → b` as a `Graph<String, String>`. -/
def chainAB : PGraph String := ⟨["a", "b"], [(0, 1)]⟩

/-- The empty trace graph. -/
def emptyGraphS : PGraph String := ⟨[], []⟩

/-- A pattern with two in-degree-zero nodes (`a` and `b`, no edges). -/
def twoRootsH : PGraph String := ⟨["a", "b"], []⟩

/-! ## Trace graphs, FerriedData and the example filter -/

/-- Node attributes: an `IndexMap<String, String>`. -/
abbrev AttrMap := List (String × String)

/-- The filter's graphs: `Graph<(String, IndexMap<String, String>), ()>`. -/
abbrev TraceGraph := PGraph (String × AttrMap)

/-- `get_node_with_id` (graph_utils): the first node index whose label
equals `name`, `none` when absent. -/
def get_node_with_id (g : TraceGraph) (name : String) : Option Nat :=
  (nodeIndices g).find? (fun i => (g.nodes.getD i ("", [])).1 = name)

/-- An unassigned property triple ⟨node label, key, value⟩. -/
abbrev PropTriple := String × String × String

/-- `FerriedData`: the piggybacked trace graph plus the buffer of
attributes not yet assignable to a graph node. -/
structure FerriedData where
  trace_graph : TraceGraph
  unassigned_properties : List PropTriple
deriving DecidableEq

/-- `FerriedData::default()`. -/
def FerriedData.default : FerriedData := ⟨⟨[], []⟩, []⟩

/-- Replace node `i`'s attribute `k` with `v` (IndexMap insert on the
node's attribute map, via `node_weight_mut`). -/
def installAttr (g : TraceGraph) (i : Nat) (k v : String) : TraceGraph :=
  match g.nodes.get? i with
  | some w => ⟨g.nodes.set i (w.1, idxInsert w.2 k v), g.edges⟩
  | none => ⟨g.nodes, g.edges⟩

/-- Modelled from the spec: `assign_properties` of the FerriedData
module (`utils::graph::serde`, which is not among the sources at hand;
only its callers are).  Per §3 of the spec it drains the buffer: each
triple whose node label now exists in the graph is installed on that
node and removed, the others remain. -/
def FerriedData.assign_properties (fd : FerriedData) : FerriedData :=
  let step := fd.unassigned_properties.foldl
    (fun (acc : TraceGraph × List PropTriple) p =>
      match get_node_with_id acc.1 p.1 with
      | some i => (installAttr acc.1 i p.2.1 p.2.2, acc.2)
      | none => (acc.1, acc.2 ++ [p]))
    (fd.trace_graph, [])
  ⟨step.1, step.2⟩

/-- RPC headers.  Plain string headers live in `hs` (an IndexMap); the
`ferried_data` entry is carried in decoded form, the serde_json codec
being modelled as the identity. -/
structure Headers where
  hs : List (String × String)
  ferried_data : Option FerriedData
deriving DecidableEq

/-- `put_ferried_data_in_hdrs`: encode `fd` into the `ferried_data`
header, overwriting. -/
def put_ferried_data_in_hdrs (fd : FerriedData) (h : Headers) : Headers :=
  ⟨h.hs, some fd⟩

/-- `Rpc` (rpc_lib): payload, uid and headers. -/
structure Rpc where
  data : String
  uid : Nat
  headers : Headers
deriving DecidableEq

/-- `Rpc::new` — the process-global uid counter is modelled by passing
the fresh uid explicitly. -/
def Rpc.newRpc (d : String) (uid : Nat) : Rpc := ⟨d, uid, ⟨[], none⟩⟩

/-- The example filter's state (example_filter.rs).  `envoy_shared_data`
maps a trace id to its stored FerriedData (decoded form). -/
structure Filter where
  whoami : Option String
  target_graph : Option TraceGraph
  filter_state : List (String × String)
  envoy_shared_data : List (String × FerriedData)
  collected_properties : List String
deriving DecidableEq

/-- `create_target_graph` (example_filter.rs): the chain a → b → c with
empty attribute maps, built by `generate_target_graph`. -/
def create_target_graph : TraceGraph :=
  ⟨[("a", []), ("b", []), ("c", [])], [(0, 1), (1, 2)]⟩

/-- Lexicographic comparison on property triples (the derived `Ord`
driving `sort_unstable`). -/
def propLe (p q : PropTriple) : Bool :=
  ((compare p.1 q.1).then ((compare p.2.1 q.2.1).then (compare p.2.2 q.2.2))) ≠ Ordering.gt

/-- `Filter::store_headers` (example_filter.rs lines 267-358).  When the
uid is new the incoming data is inserted first — and the source then
falls through to the merge regardless, so the data is also merged with
itself.  Node weights from the incoming graph are `add_node`ed
unconditionally; edges are resolved by label via `get_node_with_id`
(whose `unwrap`, modelled by `none`, cannot actually fail since the
labels were just added).  `none` models a panic. -/
def Filter.store_headers (f : Filter) (uid64 : Nat) (headers : Headers) : Option Filter :=
  match headers.ferried_data with
  | none => some f
  | some data =>
    let uid := toString uid64
    let shared :=
      if (idxLookup f.envoy_shared_data uid).isSome then f.envoy_shared_data
      else idxInsert f.envoy_shared_data uid data
    match idxLookup shared uid with
    | none => none
    | some stored =>
      let g1 := data.trace_graph.nodes.foldl (fun g w => addNode g w) stored.trace_graph
      match data.trace_graph.edges.foldlM (fun (g : TraceGraph) e =>
          match data.trace_graph.nodes.get? e.1, data.trace_graph.nodes.get? e.2 with
          | some w0, some w1 =>
            match get_node_with_id g w0.1, get_node_with_id g w1.1 with
            | some i0, some i1 => some (addEdge g i0 i1)
            | _, _ => none
          | _, _ => none) g1 with
      | none => none
      | some g2 =>
        let props := dedupConsec (insertionSort propLe
          (stored.unassigned_properties ++ data.unassigned_properties))
        let merged := FerriedData.assign_properties ⟨g2, props⟩
        some ⟨f.whoami, f.target_graph, f.filter_state,
              idxInsert shared uid merged, f.collected_properties⟩

/-- `Filter::merge_headers` (example_filter.rs lines 360-410).  With
stored data and a `response` direction, the previous in-degree-zero
nodes are collected, this workload is added as a new node with an edge
to each of them, `assign_properties` reruns, and the result is written
back into the headers.  Without stored data, a fresh FerriedData
holding just this node is written.  `none` models the `unwrap` /
missing-header panics. -/
def Filter.merge_headers (f : Filter) (uid64 : Nat) (h : Headers) : Option Headers :=
  match f.whoami with
  | none => none
  | some me =>
    let uid := toString uid64
    let myIndexmap : AttrMap := [("node.metadata.WORKLOAD_NAME", me)]
    match idxLookup f.envoy_shared_data uid with
    | some d =>
      match idxLookup h.hs "direction" with
      | none => none
      | some dir =>
        if dir = "response" then
          let previousRoots := (nodeIndices d.trace_graph).filter
            (fun n => (inNeighbors d.trace_graph n).length = 0)
          let meIdx := d.trace_graph.nodes.length
          let g1 := addNode d.trace_graph (me, myIndexmap)
          let g2 := previousRoots.foldl (fun g r => addEdge g meIdx r) g1
          let data := FerriedData.assign_properties ⟨g2, d.unassigned_properties⟩
          some (put_ferried_data_in_hdrs data h)
        else some h
    | none =>
      let nfd : FerriedData := ⟨⟨[(me, myIndexmap)], []⟩, []⟩
      some (put_ferried_data_in_hdrs nfd h)

/-- `leaf_height`: the user-defined leaf value, constantly 0. -/
def leaf_height : Nat := 0

/-- `str::parse::<u32>`: decimal digits only, value below `2^32`. -/
def parseU32 (s : String) : Option Nat :=
  match s.toNat? with
  | some n => if n < 2 ^ 32 then some n else none
  | none => none

/-- `mid_height`: max of the children's parsed values (parse failures
are logged and skipped) plus one. -/
def mid_height (childrenResponses : List String) : Nat :=
  (childrenResponses.foldl (fun mx r =>
    match parseU32 r with
    | some n => if n > mx then n else mx
    | none => mx) 0) + 1

/-- `execute_udfs_and_check_trace_lvl_prop` (example_filter.rs lines
124-161): collect this node's children's `height` attributes (indexing
a child without the attribute panics, as does a whoami label absent
from the graph), apply `leaf_height`/`mid_height`, and install the
result under `height` on this node unless already present with the
same value.  The function's Boolean result is constantly `true`. -/
def execute_udfs_and_check_trace_lvl_prop (f : Filter) (fd : FerriedData) :
    Option (FerriedData × Bool) :=
  match f.whoami with
  | none => none
  | some me =>
    match get_node_with_id fd.trace_graph me with
    | none => none
    | some idx =>
      match (outNeighbors fd.trace_graph idx).mapM (fun c =>
          match fd.trace_graph.nodes.get? c with
          | some w => idxLookup w.2 "height"
          | none => none) with
      | none => none
      | some childValues =>
        let myHeight := if childValues.length = 0 then toString leaf_height
                        else toString (mid_height childValues)
        let g :=
          match fd.trace_graph.nodes.get? idx with
          | some w =>
            if (idxLookup w.2 "height") = some myHeight then fd.trace_graph
            else installAttr fd.trace_graph idx "height" myHeight
          | none => fd.trace_graph
        some (⟨g, fd.unassigned_properties⟩, true)

/-- The scan of lines 181-186 of example_filter.rs: the first mapping
pair whose target-graph node is labelled "a".  Outer `none` models the
`node_weight(map.0).unwrap()` panic on an out-of-range index. -/
def findMappingA (tg : TraceGraph) : List (Nat × Nat) → Option (Option Nat)
  | [] => some none
  | (p, t) :: rest =>
    match tg.nodes.get? p with
    | none => none
    | some w => if w.1 = "a" then some (some t) else findMappingA tg rest

/-- `get_value_for_storage` (example_filter.rs lines 163-207): the
trace node mapped to the pattern node labelled "a" is looked up and its
`height` attribute returned; any failed lookup yields `None` (inner
`none`); the outer `none` models `unwrap` panics. -/
def get_value_for_storage (tg : TraceGraph) (mapping : List (Nat × Nat))
    (fd : FerriedData) : Option (Option String) :=
  if (get_node_with_id tg "a").isNone then some none
  else
    match findMappingA tg mapping with
    | none => none
    | some none => some none
    | some (some t) =>
      match fd.trace_graph.nodes.get? t with
      | none => none
      | some w =>
        match idxLookup w.2 "height" with
        | none => some none
        | some h => some (some h)

/-- The merge → decode → user-defined-reduction pipeline at the top of
`on_outgoing_responses` (lines 438-464): the merged headers, the
reduced FerriedData and the trace-level-property flag. -/
def oorFerried (f : Filter) (x : Rpc) : Option (Headers × FerriedData × Bool) :=
  match f.merge_headers x.uid x.headers with
  | none => none
  | some hdrs =>
    let ferried :=
      match hdrs.ferried_data with
      | none => FerriedData.default
      | some fd => fd
    match execute_udfs_and_check_trace_lvl_prop f ferried with
    | none => none
    | some (fd2, sat) => some (hdrs, fd2, sat)

/-- `Filter::on_outgoing_responses` (example_filter.rs lines 438-499).
The subtree matcher invoked here, `find_mapping_shamir_centralized`, is
not among the sources at hand, so it is passed in as a parameter; the
fresh uid that `Rpc::new_with_src` draws from the global counter is the
`freshUid` argument.  The storage rpc's headers accumulate src, dest
and direction exactly as the source inserts them. -/
def Filter.on_outgoing_responses
    (matcher : TraceGraph → TraceGraph → Option (List (Nat × Nat)))
    (freshUid : Nat) (f : Filter) (x : Rpc) : Option (List Rpc) :=
  match oorFerried f x with
  | none => none
  | some (hdrs, fd2, sat) =>
    let original : Rpc := ⟨x.data, x.uid, hdrs⟩
    let withFd : Rpc := ⟨original.data, original.uid, put_ferried_data_in_hdrs fd2 original.headers⟩
    match f.whoami with
    | none => none
    | some me =>
      if sat && (me == "productpage-v1") then
        match f.target_graph with
        | none => none
        | some tg =>
          match matcher fd2.trace_graph tg with
          | some m =>
            match get_value_for_storage tg m fd2 with
            | none => none
            | some none => some [withFd]
            | some (some v) =>
              let storage : Rpc := ⟨v, freshUid,
                ⟨[("src", me), ("dest", "storage"), ("direction", "request")], none⟩⟩
              some [withFd, storage]
          | none => some [withFd]
      else some [withFd]

/-! ## node.rs: the bounded-queue service node -/

/-- An rpc paired with the destination it was routed to. -/
structure RpcWithDst where
  rpc : Rpc
  destination : String
deriving DecidableEq

/-- Modelled from the spec: the plugin wrapper consumed by
`src/libs/sim/node.rs`, whose own source file is not among the sources
at hand (the node invokes its `recv` and `tick` strictly back to back).
Per §4.4 and §6 of the spec it buffers the one delivered message and,
on tick, yields the filter's `execute` output — zero, one or two
messages — so the pair of calls collapses to one application of
`exec`. -/
structure NodePlugin where
  exec : Rpc → List Rpc

/-- `Node` (node.rs): FIFO queue of routed rpcs, rates, optional
plugin, neighbor list and RNG seed. -/
structure Node where
  queue : List RpcWithDst
  id : String
  capacity : Nat
  egress_rate : Nat
  generation_rate : Nat
  plugin : Option NodePlugin
  neighbors : List String
  seed : Nat

/-- Replace the queue, keeping every other field. -/
def Node.setQueue (n : Node) (q : List RpcWithDst) : Node :=
  ⟨q, n.id, n.capacity, n.egress_rate, n.generation_rate, n.plugin, n.neighbors, n.seed⟩

/-- `Node::route_rpc` (node.rs lines 181-210), parameterized by
`genRange seed n`, the value of
`StdRng::seed_from_u64(seed).gen_range(0, n)` — the RNG is re-seeded
from `self.seed` on every call.  A `dest` header routes to that
neighbor when present in the neighbor list and otherwise falls through
to the final `return vec![]`; only a message without a `dest` header
triggers the random pick, which writes the choice into `dest`. -/
def Node.route_rpc (genRange : Nat → Nat → Nat) (n : Node) (rpc : Rpc) :
    List RpcWithDst :=
  match idxLookup rpc.headers.hs "dest" with
  | some dest =>
    if n.neighbors.contains dest then [⟨rpc, dest⟩] else []
  | none =>
    if n.neighbors.length > 0 then
      let idx := genRange n.seed n.neighbors.length
      let which := n.neighbors.getD idx ""
      [⟨⟨rpc.data, rpc.uid, ⟨idxInsert rpc.headers.hs "dest" which, rpc.headers.ferried_data⟩⟩,
        which⟩]
    else []

/-- `Node::recv` (node.rs lines 126-153): a full queue drops the rpc;
otherwise the rpc (or, with a plugin, each message the filter produces
from it) is routed and every routed result enqueued. -/
def Node.recv (genRange : Nat → Nat → Nat) (n : Node) (rpc : Rpc) : Node :=
  if n.queue.length < n.capacity then
    match n.plugin with
    | none => n.setQueue (n.queue ++ n.route_rpc genRange rpc)
    | some p =>
      let routed := (p.exec rpc).foldl (fun acc r => acc ++ n.route_rpc genRange r) []
      n.setQueue (n.queue ++ routed)
  else n

/-- Insert `direction: request` into a routed rpc (node.rs lines
96-100). -/
def addRequestDirection (rd : RpcWithDst) : RpcWithDst :=
  ⟨⟨rd.rpc.data, rd.rpc.uid,
    ⟨idxInsert rd.rpc.headers.hs "direction" "request", rd.rpc.headers.ferried_data⟩⟩,
   rd.destination⟩

/-- Pair each filter output with its `dest` header (node.rs lines
85-90); a missing `dest` header panics (`none`). -/
def pluginOutputs (p : NodePlugin) (rpc : Rpc) : Option (List (Rpc × String)) :=
  (p.exec rpc).mapM (fun fr =>
    match idxLookup fr.headers.hs "dest" with
    | some d => some (fr, d)
    | none => none)

/-- Run each routed rpc through the plugin in order, concatenating the
(rpc, dest-header) outputs (node.rs lines 101-112). -/
def pluginOutputsAll (p : NodePlugin) (rds : List RpcWithDst) :
    Option (List (Rpc × String)) :=
  rds.foldlM (fun acc rd => (pluginOutputs p rd.rpc).map (fun outs => acc ++ outs)) []

/-- Synthesize a fresh rpc for tick `t` (payload `t` stringified, uid
from the counter), route it, and stamp `direction: request` on each
routed copy (node.rs lines 95-100). -/
def genStep (genRange : Nat → Nat → Nat) (n : Node) (t ctr : Nat) : List RpcWithDst :=
  (n.route_rpc genRange (Rpc.newRpc (toString t) ctr)).map addRequestDirection

/-- The body of `Node::tick`'s `for` loop (node.rs lines 71-118), run
`k` times over the queue: a non-empty queue dequeues and emits (through
the plugin when present); an empty queue synthesizes a fresh rpc with
payload `t` (uid drawn from the global counter, modelled by `ctr`),
routes it, stamps `direction: request`, and emits likewise. -/
def Node.tickLoop (genRange : Nat → Nat → Nat) (n : Node) (t : Nat) :
    Nat → List RpcWithDst → Nat → List (Rpc × String) →
    Option (List RpcWithDst × Nat × List (Rpc × String))
  | 0, q, ctr, out => some (q, ctr, out)
  | Nat.succ k, q, ctr, out =>
    match q with
    | deq :: rest =>
      match n.plugin with
      | some p =>
        match pluginOutputs p deq.rpc with
        | none => none
        | some outs => Node.tickLoop genRange n t k rest ctr (out ++ outs)
      | none => Node.tickLoop genRange n t k rest ctr (out ++ [(deq.rpc, deq.destination)])
    | [] =>
      match n.plugin with
      | some p =>
        match pluginOutputsAll p (genStep genRange n t ctr) with
        | none => none
        | some outs => Node.tickLoop genRange n t k [] (ctr + 1) (out ++ outs)
      | none =>
        Node.tickLoop genRange n t k [] (ctr + 1)
          (out ++ (genStep genRange n t ctr).map (fun rd => (rd.rpc, rd.destination)))

/-- `Node::tick` (node.rs lines 69-121): the loop bound
`min(queue.len + generation_rate, egress_rate)` is computed once up
front.  Returns the node, the advanced uid counter and the emitted
(rpc, destination) pairs; `none` models a panic inside the loop. -/
def Node.tick (genRange : Nat → Nat → Nat) (n : Node) (t : Nat) (ctr : Nat) :
    Option (Node × Nat × List (Rpc × String)) :=
  let bound := min (n.queue.length + n.generation_rate) n.egress_rate
  match Node.tickLoop genRange n t bound n.queue ctr [] with
  | none => none
  | some (q, ctr2, outs) => some (n.setQueue q, ctr2, outs)

/-- One step of a node's external interface: a delivery or a tick. -/
inductive NodeOp where
  | recvOp (rpc : Rpc)
  | tickOp (t : Nat) (ctr : Nat)

/-- Run a sequence of `recv`/`tick` calls against a node; `none`
propagates a panic. -/
def applyOps (genRange : Nat → Nat → Nat) : List NodeOp → Node → Option Node
  | [], n => some n
  | NodeOp.recvOp r :: ops, n => applyOps genRange ops (n.recv genRange r)
  | NodeOp.tickOp t c :: ops, n =>
    match n.tick genRange t c with
    | none => none
    | some (n2, _, _) => applyOps genRange ops n2

/-! ## src/sim/src/plugin_wrapper.rs: the one-slot plugin wrapper -/

/-- `PluginWrapper` (src/sim/src/plugin_wrapper.rs).  The dynamically
loaded codelet applied to the wrapper's immutable filter is the `exec`
field; `stored_rpc` is the single buffered message. -/
structure PluginWrapper where
  exec : Rpc → Option Rpc
  id : Nat
  stored_rpc : Option Rpc
  neighbor : Option Nat

/-- `PluginWrapper::recv` (lines 48-51): buffers the rpc;
`assert!(stored_rpc.is_none(), "Overwriting previous RPC")` — a second
recv without an intervening tick panics (`none`). -/
def PluginWrapper.recv (pw : PluginWrapper) (rpc : Rpc) : Option PluginWrapper :=
  match pw.stored_rpc with
  | some _ => none
  | none => some ⟨pw.exec, pw.id, some rpc, pw.neighbor⟩

/-- `PluginWrapper::tick` (lines 35-47): with a buffered rpc, run the
filter's execute, clear the buffer, and emit the produced rpc (if any)
paired with the configured neighbor; with no buffered rpc, emit
nothing. -/
def PluginWrapper.tick (pw : PluginWrapper) : PluginWrapper × List (Rpc × Option Nat) :=
  match pw.stored_rpc with
  | some r =>
    let cleared : PluginWrapper := ⟨pw.exec, pw.id, none, pw.neighbor⟩
    match pw.exec r with
    | none => (cleared, [])
    | some out => (cleared, [(out, pw.neighbor)])
  | none => (pw, [])

/-! ## Concrete instances used as test vectors and witnesses -/

/-- A trivial model of `gen_range`: always pick index 0 (a valid model
of the seeded RNG draw, which only has to be in range). -/
def zeroRange : Nat → Nat → Nat := fun _ _ => 0

/-- A filter as produced by `Filter::new()`. -/
def c2Filter : Filter := ⟨none, none, [], [], ["height"]⟩

/-- A FerriedData carrying the single node `a`. -/
def c2Fd : FerriedData := ⟨⟨[("a", [])], []⟩, []⟩

/-- Headers carrying `c2Fd` as ferried data. -/
def c2Headers : Headers := ⟨[], some c2Fd⟩

/-- A filter with workload name `w` and one stored trace (uid 5,
single node `x`). -/
def c3Filter : Filter := ⟨some "w", none, [], [("5", ⟨⟨[("x", [])], []⟩, []⟩)], ["height"]⟩

/-- Response-direction headers with no ferried data. -/
def c3Hdr : Headers := ⟨[("direction", "response")], none⟩

/-- The root-service filter with the compiled target graph and no
stored traces. -/
def c4Filter : Filter := ⟨some "productpage-v1", some create_target_graph, [], [], ["height"]⟩

/-- A response rpc reaching the root service. -/
def c4Rpc : Rpc := ⟨"pay", 3, ⟨[("direction", "response")], none⟩⟩

/-- A matcher instance mapping pattern node 0 to trace node 0. -/
def c4Matcher : TraceGraph → TraceGraph → Option (List (Nat × Nat)) := fun _ _ => some [(0, 0)]

/-- The FerriedData produced for `c4Rpc` by merge + reduction: the
seeded single-node graph with its height attribute installed. -/
def c4Fd2 : FerriedData :=
  ⟨⟨[("productpage-v1",
      [("node.metadata.WORKLOAD_NAME", "productpage-v1"), ("height", "0")])], []⟩, []⟩

/-- The headers of `c4Rpc` after `merge_headers`. -/
def c4Hdrs : Headers :=
  ⟨[("direction", "response")],
   some ⟨⟨[("productpage-v1", [("node.metadata.WORKLOAD_NAME", "productpage-v1")])], []⟩, []⟩⟩

/-- A plugin whose filter emits two messages per input (the spec's
`on_outgoing_response` emits {original, storage}). -/
def c6Plugin : NodePlugin := ⟨fun r => [r, r]⟩

/-- A capacity-1 node carrying `c6Plugin`. -/
def c6Node : Node := ⟨[], "n", 1, 1, 0, some c6Plugin, ["a"], 0⟩

/-- An rpc already addressed to neighbor `a`. -/
def c6Rpc : Rpc := ⟨"x", 0, ⟨[("dest", "a")], none⟩⟩

/-- A plugin-free node whose queue is at capacity. -/
def c6FullNode : Node := ⟨[⟨c6Rpc, "a"⟩], "m", 1, 1, 0, none, ["a"], 0⟩

/-- A plugin-free node with the single neighbor `a`. -/
def c7Node : Node := ⟨[], "n0", 2, 1, 0, none, ["a"], 7⟩

/-- An rpc addressed to `b`, which is not one of `c7Node`'s
neighbors. -/
def c7RpcB : Rpc := ⟨"p", 0, ⟨[("dest", "b")], none⟩⟩

/-- An rpc addressed to `a`. -/
def c7RpcA : Rpc := ⟨"p", 0, ⟨[("dest", "a")], none⟩⟩

/-- A dest-less rpc. -/
def c10Rpc1 : Rpc := ⟨"m1", 1, ⟨[], none⟩⟩

/-- Another dest-less rpc with different payload and headers. -/
def c10Rpc2 : Rpc := ⟨"m2", 2, ⟨[("other", "h")], none⟩⟩

/-- A generating node whose egress rate (1) is below its generation
rate (2). -/
def c8Node : Node := ⟨[], "g", 5, 1, 2, none, ["a"], 0⟩

/-- A generating node whose egress rate (3) exceeds its generation
rate (2). -/
def c8GenNode : Node := ⟨[], "g2", 5, 3, 2, none, ["a"], 0⟩

/-- A plugin wrapper whose filter echoes its input, with neighbor 2. -/
def c9Pw : PluginWrapper := ⟨fun r => some r, 1, none, some 2⟩

/-- `c9Pw` after buffering `c9Rpc1`. -/
def c9Pw1 : PluginWrapper := ⟨fun r => some r, 1, some ⟨"a", 0, ⟨[], none⟩⟩, some 2⟩

/-- A first test rpc. -/
def c9Rpc1 : Rpc := ⟨"a", 0, ⟨[], none⟩⟩

/-- A second test rpc. -/
def c9Rpc2 : Rpc := ⟨"b", 1, ⟨[], none⟩⟩

/-! ## Theorems -/

/-- C2: the claim says `store_headers` twice equals `store_headers`
once and that node labels already stored are never reinserted.  The
code contradicts this (and the comment "you needn't merge - just throw
it in"): a single store of a one-node graph under a fresh uid stores
two copies of the node, and a second identical store stores three. -/
theorem c2_store_headers_duplicates_and_not_idempotent :
    ((c2Filter.store_headers 0 c2Headers).bind (fun f1 =>
        (idxLookup f1.envoy_shared_data "0").map
          (fun fd => fd.trace_graph.nodes.map Prod.fst)))
      = some ["a", "a"]
    ∧ (((c2Filter.store_headers 0 c2Headers).bind
          (fun f1 => f1.store_headers 0 c2Headers)).bind
        (fun f2 => (idxLookup f2.envoy_shared_data "0").map
          (fun fd => fd.trace_graph.nodes.map Prod.fst)))
      = some ["a", "a", "a"] := ⟨rfl, rfl⟩

/-- C5 counterexample: the matcher raises no recoverable
`MalformedPattern` for a multi-rooted pattern (it returns an ordinary
no-match result), and on an empty trace graph it aborts with the
`no root found` panic instead of returning a no-mapping result. -/
theorem c5_counterexample_no_recoverable_errors :
    find_mapping_shamir emptyGraphS twoRootsH = Except.error "no root found"
    ∧ find_mapping_shamir chainAB twoRootsH = Except.ok false := ⟨rfl, rfl⟩

/-- C5 amended: a pattern with several in-degree-zero nodes triggers no
error — `find_root` silently returns the first such node and the
matcher completes normally — while an empty trace graph makes the
matcher panic with "no root found" rather than return none. -/
theorem c5_amended_empty_panics_multiroot_silent :
    (∀ gH, find_mapping_shamir emptyGraphS gH = Except.error "no root found")
    ∧ findRootE twoRootsH = Except.ok 0
    ∧ find_mapping_shamir chainAB twoRootsH = Except.ok false :=
  ⟨fun _ => rfl, rfl, rfl⟩

/-- C9: the plugin wrapper buffers exactly one message: a second `recv`
without an intervening `tick` hits the Overwrite assertion; `tick` on a
buffered message runs the filter's execute, clears the buffer (so the
next `recv` succeeds) and emits the produced message with the
configured destination; `tick` with an empty buffer emits nothing. -/
theorem c9_plugin_wrapper_one_slot (pw pw1 : PluginWrapper) (r1 r2 : Rpc)
    (h : pw.recv r1 = some pw1) :
    pw1.recv r2 = none
    ∧ pw1.tick = (⟨pw.exec, pw.id, none, pw.neighbor⟩,
        match pw.exec r1 with
        | none => []
        | some out => [(out, pw.neighbor)])
    ∧ ((pw1.tick).1.recv r2).isSome = true
    ∧ (∀ pw0 : PluginWrapper, pw0.stored_rpc = none → pw0.tick = (pw0, [])) := by
  have hst : pw.stored_rpc = none ∧ pw1 = ⟨pw.exec, pw.id, some r1, pw.neighbor⟩ := by
    unfold PluginWrapper.recv at h
    cases hs : pw.stored_rpc with
    | some r => rw [hs] at h; exact absurd h (by simp)
    | none =>
      rw [hs] at h
      refine ⟨rfl, ?_⟩
      injection h with h2
      exact h2.symm
  obtain ⟨h0, h1⟩ := hst
  subst h1
  refine ⟨rfl, ?_, ?_, ?_⟩
  · cases hx : pw.exec r1 <;> simp [PluginWrapper.tick, hx]
  · cases hx : pw.exec r1 <;> simp [PluginWrapper.tick, PluginWrapper.recv, hx]
  · intro pw0 hp0
    unfold PluginWrapper.tick
    rw [hp0]

/-- C9 witness: the overwrite failure and the tick output at a concrete
wrapper. -/
theorem c9_witness :
    c9Pw1.recv c9Rpc2 = none ∧ (c9Pw1.tick).2 = [(c9Rpc1, some 2)] := by
  have h := c9_plugin_wrapper_one_slot c9Pw c9Pw1 c9Rpc1 c9Rpc2 rfl
  exact ⟨h.1, by rw [h.2.1]; rfl⟩

/-- C10: routing of dest-less messages is deterministic and constant
per node: the RNG is re-seeded from `node.seed` on every call, so any
two `route_rpc` calls on the same node pick the same neighbor,
independent of the message. -/
theorem c10_route_rpc_deterministic (genRange : Nat → Nat → Nat) (n : Node)
    (r1 r2 : Rpc)
    (h1 : idxLookup r1.headers.hs "dest" = none)
    (h2 : idxLookup r2.headers.hs "dest" = none) :
    (n.route_rpc genRange r1).map RpcWithDst.destination
      = (n.route_rpc genRange r2).map RpcWithDst.destination
    ∧ (0 < n.neighbors.length →
        (n.route_rpc genRange r1).map RpcWithDst.destination
          = [n.neighbors.getD (genRange n.seed n.neighbors.length) ""]) := by
  unfold Node.route_rpc
  rw [h1, h2]
  constructor
  · by_cases h : 0 < n.neighbors.length <;> simp [h]
  · intro h; simp [h]

/-- C10 witness: two different dest-less rpcs at a concrete node route
to the same concrete neighbor. -/
theorem c10_witness :
    (c7Node.route_rpc zeroRange c10Rpc1).map RpcWithDst.destination
      = (c7Node.route_rpc zeroRange c10Rpc2).map RpcWithDst.destination
    ∧ (c7Node.route_rpc zeroRange c10Rpc1).map RpcWithDst.destination = ["a"] := by
  have h := c10_route_rpc_deterministic zeroRange c7Node c10Rpc1 c10Rpc2 rfl rfl
  exact ⟨h.1, h.2 (by decide)⟩

/-- C7 counterexample: a message whose `dest` header names a
non-neighbor is dropped by `route_rpc` (empty result), although the
node has neighbors — no random re-pick happens, contradicting the
claim's "otherwise a neighbor is picked uniformly at random". -/
theorem c7_counterexample_nonneighbor_dest_dropped :
    c7Node.route_rpc zeroRange c7RpcB = []
    ∧ c7Node.neighbors = ["a"]
    ∧ idxLookup c7RpcB.headers.hs "dest" = some "b" := ⟨rfl, rfl, rfl⟩

/-- C6 counterexample: with a filter that emits two messages per
delivery — which the spec's own `on_outgoing_response` does — a single
`recv` at a capacity-1 node enqueues two items, exceeding the
capacity. -/
theorem c6_counterexample_queue_exceeds_capacity :
    (c6Node.recv zeroRange c6Rpc).queue.length = 2
    ∧ c6Node.capacity = 1 ∧ c6Node.queue.length = 0 := ⟨rfl, rfl, rfl⟩

/-- C8 counterexample: a node with generation rate 2 but egress rate 1
synthesizes only one message on a tick from an empty queue — the loop
bound is `min(queue + generation_rate, egress_rate)`, not
`generation_rate`. -/
theorem c8_counterexample_generation_capped_by_egress :
    (c8Node.tick zeroRange 0 0).map (fun r => r.2.2.length) = some 1
    ∧ c8Node.generation_rate = 2 ∧ c8Node.queue = [] ∧ (1 : Nat) ≠ 2 :=
  ⟨rfl, rfl, rfl, by decide⟩

/-! ### The stub matcher never reports a match -/

theorem mem_inNeighbors {α : Type} (g : PGraph α) (v c : Nat) :
    c ∈ inNeighbors g v ↔ (c, v) ∈ g.edges := by
  unfold PGraph.inNeighbors
  simp only [List.mem_reverse, List.mem_map, List.mem_filter, decide_eq_true_eq]
  constructor
  · rintro ⟨⟨e1, e2⟩, ⟨he, hv⟩, hc⟩
    simp only at hv hc
    subst hv; subst hc; exact he
  · intro h; exact ⟨(c, v), ⟨h, rfl⟩, rfl⟩

theorem sInsert_mem (s : SMap) (k : Nat × Nat) (x c : Nat) (k' : Nat × Nat)
    (h : c ∈ sInsert s k x k') : c ∈ s k' ∨ (c = x ∧ k' = k) := by
  unfold sInsert at h
  by_cases hk : k' = k
  · subst hk
    rw [if_pos rfl] at h
    by_cases hc : (s k').contains x
    · rw [if_pos hc] at h; exact Or.inl h
    · rw [if_neg hc] at h
      rcases List.mem_append.1 h with h1 | h2
      · exact Or.inl h1
      · exact Or.inr ⟨List.mem_singleton.1 h2, rfl⟩
  · rw [if_neg hk] at h; exact Or.inl h

theorem foldl_inv {α β : Type} (P : β → Prop) (f : β → α → β) :
    ∀ (l : List α) (b : β), P b → (∀ b a, a ∈ l → P b → P (f b a)) →
      P (l.foldl f b) := by
  intro l
  induction l with
  | nil => intro b hb _; exact hb
  | cons x xs ih =>
    intro b hb hstep
    exact ih (f b x) (hstep b x (List.mem_cons_self x xs) hb)
      (fun b a ha hb => hstep b a (List.mem_cons_of_mem x ha) hb)

theorem initS_inv (gG gH : PGraph String) (s : SMap)
    (h : initS gG gH = Except.ok s) :
    ∀ a b c, c ∈ s (a, b) → (c, b) ∈ gH.edges := by
  unfold initS at h
  cases hg : findRootE gG with
  | error e => rw [hg] at h; cases h
  | ok rootG =>
    rw [hg] at h
    cases hh : findRootE gH with
    | error e => rw [hh] at h; cases h
    | ok rootH =>
      rw [hh] at h
      injection h with h
      subst h
      refine foldl_inv
        (fun s : SMap => ∀ a b c, c ∈ s (a, b) → (c, b) ∈ gH.edges) _ _ _
        (fun a b c hc => absurd hc (List.not_mem_nil c)) ?_
      intro s1 leafG _ hs1
      refine foldl_inv
        (fun s : SMap => ∀ a b c, c ∈ s (a, b) → (c, b) ∈ gH.edges) _ _ _ hs1 ?_
      intro s2 leafH _ hs2
      refine foldl_inv
        (fun s : SMap => ∀ a b c, c ∈ s (a, b) → (c, b) ∈ gH.edges) _ _ _ hs2 ?_
      intro s3 nb hnb hs3 a b c hc
      rcases sInsert_mem s3 (leafG, leafH) nb c (a, b) hc with h1 | ⟨hcx, hk⟩
      · exact hs3 a b c h1
      · have hb : b = leafH := congrArg Prod.snd hk
        subst hb; subst hcx
        exact (mem_inNeighbors gH b c).1 hnb

theorem shamirInner_eq (u v : List Nat) (node nodeH : Nat) :
    ∀ (k : Nat) (s : SMap), k ≤ u.length →
      shamirInner u v node nodeH k s
        = (s, decide (0 < k) && (s (node, nodeH)).contains nodeH) := by
  intro k
  induction k with
  | zero => intro s _; simp [shamirInner]
  | succ k ih =>
    intro s hk
    have hlen : 0 < u.length := Nat.lt_of_lt_of_le (Nat.succ_pos k) hk
    have hxI : (if u.length - Nat.succ k ≠ 0
        then u.eraseIdx (u.length - Nat.succ k) else u).length ≠ 0 := by
      by_cases hi : u.length - Nat.succ k = 0
      · rw [if_neg (not_not_intro hi)]
        omega
      · rw [if_pos hi]
        rw [List.length_eraseIdx]
        have hilt : u.length - Nat.succ k < u.length := Nat.sub_lt hlen (Nat.succ_pos k)
        simp only [hilt, if_pos]
        omega
    have hins : ¬((0 : Nat) = (if u.length - Nat.succ k ≠ 0
        then u.eraseIdx (u.length - Nat.succ k) else u).length) :=
      fun hcontra => hxI hcontra.symm
    rw [shamirInner]
    simp only [maximum_matching_size]
    rw [if_neg hins]
    by_cases hc : (s (node, nodeH)).contains nodeH = true
    · rw [if_pos hc, hc]
      simp
    · rw [if_neg hc, ih s (Nat.le_of_succ_le hk)]
      simp only [Bool.not_eq_true] at hc
      rw [hc]
      simp

theorem shamirOverH_eq (gG gH : PGraph String) (node : Nat) :
    ∀ (hs : List Nat) (s : SMap),
      shamirOverH gG gH node hs s
        = (s, hs.any (fun nodeH =>
            decide ((outNeighbors gH nodeH).length ≤ (outNeighbors gG node).length + 1)
            && (decide (0 < (outNeighbors gH nodeH).length)
                && (s (node, nodeH)).contains nodeH))) := by
  intro hs
  induction hs with
  | nil => intro s; simp [shamirOverH]
  | cons nodeH rest ih =>
    intro s
    rw [shamirOverH]
    dsimp only
    by_cases hdeg : (outNeighbors gH nodeH).length ≤ (outNeighbors gG node).length + 1
    · rw [if_pos hdeg,
          shamirInner_eq (outNeighbors gH nodeH) (outNeighbors gG node) node nodeH
            (outNeighbors gH nodeH).length s le_rfl]
      dsimp only
      by_cases hfound : (decide (0 < (outNeighbors gH nodeH).length)
          && (s (node, nodeH)).contains nodeH) = true
      · rw [if_pos hfound, List.any_cons]
        have hterm : (decide ((outNeighbors gH nodeH).length
              ≤ (outNeighbors gG node).length + 1)
            && (decide (0 < (outNeighbors gH nodeH).length)
                && (s (node, nodeH)).contains nodeH)) = true := by
          rw [hfound]
          simp [hdeg]
        rw [hterm, Bool.true_or]
      · rw [if_neg hfound, ih s, List.any_cons]
        have hf : (decide (0 < (outNeighbors gH nodeH).length)
            && (s (node, nodeH)).contains nodeH) = false := by
          simpa using hfound
        have hterm : (decide ((outNeighbors gH nodeH).length
              ≤ (outNeighbors gG node).length + 1)
            && (decide (0 < (outNeighbors gH nodeH).length)
                && (s (node, nodeH)).contains nodeH)) = false := by
          rw [hf, Bool.and_false]
        rw [hterm, Bool.false_or]
    · rw [if_neg hdeg, ih s, List.any_cons]
      have hterm : (decide ((outNeighbors gH nodeH).length
            ≤ (outNeighbors gG node).length + 1)
          && (decide (0 < (outNeighbors gH nodeH).length)
              && (s (node, nodeH)).contains nodeH)) = false := by
        have hdeg2 : decide ((outNeighbors gH nodeH).length
            ≤ (outNeighbors gG node).length + 1) = false := by
          simpa using hdeg
        rw [hdeg2, Bool.false_and]
      rw [hterm, Bool.false_or]

theorem shamirOverG_eq (gG gH : PGraph String) :
    ∀ (order : List Nat) (s : SMap),
      shamirOverG gG gH order s
        = (s, order.any (fun node => (nodeIndices gH).any (fun nodeH =>
            decide ((outNeighbors gH nodeH).length ≤ (outNeighbors gG node).length + 1)
            && (decide (0 < (outNeighbors gH nodeH).length)
                && (s (node, nodeH)).contains nodeH)))) := by
  intro order
  induction order with
  | nil => intro s; simp [shamirOverG]
  | cons node rest ih =>
    intro s
    rw [shamirOverG]
    rw [shamirOverH_eq gG gH node (nodeIndices gH) s]
    by_cases hfound : ((nodeIndices gH).any (fun nodeH =>
        decide ((outNeighbors gH nodeH).length ≤ (outNeighbors gG node).length + 1)
        && (decide (0 < (outNeighbors gH nodeH).length)
            && (s (node, nodeH)).contains nodeH))) = true
    · rw [if_pos hfound, List.any_cons, hfound, Bool.true_or]
    · rw [if_neg hfound, ih s, List.any_cons]
      have hf : ((nodeIndices gH).any (fun nodeH =>
          decide ((outNeighbors gH nodeH).length ≤ (outNeighbors gG node).length + 1)
          && (decide (0 < (outNeighbors gH nodeH).length)
              && (s (node, nodeH)).contains nodeH))) = false := by
        simpa using hfound
      rw [hf, Bool.false_or]

theorem find_mapping_shamir_no_self_loop_false (gG gH : PGraph String)
    (hH : ∀ e ∈ gH.edges, e.1 ≠ e.2) (b : Bool)
    (hb : find_mapping_shamir gG gH = Except.ok b) : b = false := by
  unfold find_mapping_shamir at hb
  cases hi : initS gG gH with
  | error e => rw [hi] at hb; cases hb
  | ok s =>
    rw [hi] at hb
    cases hr : findRootE gG with
    | error e => rw [hr] at hb; cases hb
    | ok rootG =>
      rw [hr] at hb
      injection hb with hb
      rw [shamirOverG_eq] at hb
      have hcont : ∀ node nodeH : Nat, (s (node, nodeH)).contains nodeH = false := by
        intro node nodeH
        by_contra hcc
        rw [Bool.not_eq_false] at hcc
        have hmem : nodeH ∈ s (node, nodeH) := by
          simpa [List.contains] using hcc
        exact hH _ (initS_inv gG gH s hi node nodeH nodeH hmem) rfl
      have hany : ((dfsPostOrder gG rootG).any (fun node => (nodeIndices gH).any
          (fun nodeH =>
            decide ((outNeighbors gH nodeH).length ≤ (outNeighbors gG node).length + 1)
            && (decide (0 < (outNeighbors gH nodeH).length)
                && (s (node, nodeH)).contains nodeH)))) = false := by
        rw [List.any_eq_false]
        intro node _
        simp only [Bool.not_eq_true]
        rw [List.any_eq_false]
        intro nodeH _
        simp only [Bool.not_eq_true]
        rw [hcont node nodeH, Bool.and_false, Bool.and_false]
      have hb2 : ((dfsPostOrder gG rootG).any (fun node => (nodeIndices gH).any
          (fun nodeH =>
            decide ((outNeighbors gH nodeH).length ≤ (outNeighbors gG node).length + 1)
            && (decide (0 < (outNeighbors gH nodeH).length)
                && (s (node, nodeH)).contains nodeH)))) = b := hb
      rw [← hb2]
      exact hany

/-- C1: the subtree matcher cannot report containment.  The
`maximum_matching_size` routine is a stub returning 0, and with it
`find_mapping_shamir` returns a negative answer for every pair of
self-loop-free graphs — in particular for the trace `a → b` and the
identical (hence trivially contained) pattern `a → b`. -/
theorem c1_matcher_never_reports_containment :
    find_mapping_shamir chainAB chainAB = Except.ok false
    ∧ (∀ xs ys : List Nat, maximum_matching_size xs ys = 0)
    ∧ (∀ gG gH : PGraph String, (∀ e ∈ gH.edges, e.1 ≠ e.2) →
        ∀ b, find_mapping_shamir gG gH = Except.ok b → b = false) :=
  ⟨rfl, fun _ _ => rfl,
   fun gG gH h b hb => find_mapping_shamir_no_self_loop_false gG gH h b hb⟩

/-- C1 witness: the general no-match statement applied to the concrete
two-root pattern over the chain trace. -/
theorem c1_witness : find_mapping_shamir chainAB twoRootsH ≠ Except.ok true :=
  fun h => Bool.noConfusion
    (c1_matcher_never_reports_containment.2.2 chainAB twoRootsH (by decide) true h)

/-! ### Routing and the queue bound -/

theorem route_rpc_length_le_one (genRange : Nat → Nat → Nat) (n : Node) (rpc : Rpc) :
    (n.route_rpc genRange rpc).length ≤ 1 := by
  unfold Node.route_rpc
  cases idxLookup rpc.headers.hs "dest" with
  | some d => dsimp only; split <;> simp
  | none => dsimp only; split <;> simp

/-- C7 amended: a `dest` header naming a neighbor routes there; a
`dest` header naming a non-neighbor drops the message; only a message
without a `dest` header gets the seeded random pick, which is written
into `dest`; a node without neighbors drops everything. -/
theorem c7_amended_route_rpc (genRange : Nat → Nat → Nat)
    (hR : ∀ s k, 0 < k → genRange s k < k) (n : Node) (rpc : Rpc) :
    (∀ d, idxLookup rpc.headers.hs "dest" = some d →
        (d ∈ n.neighbors → n.route_rpc genRange rpc = [⟨rpc, d⟩])
        ∧ (d ∉ n.neighbors → n.route_rpc genRange rpc = []))
    ∧ (idxLookup rpc.headers.hs "dest" = none → n.neighbors ≠ [] →
        ∃ w, w ∈ n.neighbors
          ∧ n.route_rpc genRange rpc =
              [⟨⟨rpc.data, rpc.uid, ⟨idxInsert rpc.headers.hs "dest" w,
                  rpc.headers.ferried_data⟩⟩, w⟩])
    ∧ (n.neighbors = [] → n.route_rpc genRange rpc = []) := by
  refine ⟨?_, ?_, ?_⟩
  · intro d hd
    constructor
    · intro hmem
      have hcon : n.neighbors.contains d = true := by
        simpa [List.contains] using hmem
      unfold Node.route_rpc
      rw [hd]
      dsimp only
      rw [if_pos hcon]
    · intro hmem
      have hcon : n.neighbors.contains d = false := by
        simpa [List.contains] using hmem
      unfold Node.route_rpc
      rw [hd]
      dsimp only
      rw [hcon]
      simp
  · intro hd hne
    have hlen : 0 < n.neighbors.length := List.length_pos.2 hne
    have hidx := hR n.seed n.neighbors.length hlen
    unfold Node.route_rpc
    rw [hd]
    dsimp only
    rw [if_pos hlen]
    refine ⟨n.neighbors.getD (genRange n.seed n.neighbors.length) "", ?_, rfl⟩
    rw [List.getD_eq_getElem?_getD, List.getElem?_eq_getElem hidx]
    exact List.getElem_mem hidx
  · intro hni
    unfold Node.route_rpc
    cases hd : idxLookup rpc.headers.hs "dest" with
    | some d => dsimp only; simp [hni]
    | none => dsimp only; simp [hni]

/-- C7 witness: a message addressed to neighbor `a` is routed there. -/
theorem c7_witness : c7Node.route_rpc zeroRange c7RpcA = [⟨c7RpcA, "a"⟩] :=
  ((c7_amended_route_rpc zeroRange (fun _ _ h => h) c7Node c7RpcA).1 "a" rfl).1 (by decide)

theorem recv_eq_of_full (genRange : Nat → Nat → Nat) (n : Node) (rpc : Rpc)
    (h : n.capacity ≤ n.queue.length) : n.recv genRange rpc = n := by
  unfold Node.recv
  rw [if_neg (Nat.not_lt.2 h)]

theorem recv_queue_le_of_no_plugin (genRange : Nat → Nat → Nat) (n : Node) (rpc : Rpc)
    (hp : n.plugin = none) (h : n.queue.length ≤ n.capacity) :
    (n.recv genRange rpc).queue.length ≤ n.capacity := by
  unfold Node.recv
  by_cases hlt : n.queue.length < n.capacity
  · rw [if_pos hlt, hp]
    have := route_rpc_length_le_one genRange n rpc
    simp only [Node.setQueue, List.length_append]
    omega
  · rw [if_neg hlt]; exact h

theorem recv_capacity (genRange : Nat → Nat → Nat) (n : Node) (rpc : Rpc) :
    (n.recv genRange rpc).capacity = n.capacity := by
  unfold Node.recv
  by_cases hlt : n.queue.length < n.capacity
  · rw [if_pos hlt]
    cases hp : n.plugin <;> rfl
  · rw [if_neg hlt]

theorem recv_plugin (genRange : Nat → Nat → Nat) (n : Node) (rpc : Rpc) :
    (n.recv genRange rpc).plugin = n.plugin := by
  unfold Node.recv
  by_cases hlt : n.queue.length < n.capacity
  · rw [if_pos hlt]
    cases hp : n.plugin <;> exact hp
  · rw [if_neg hlt]

theorem tickLoop_queue_length (genRange : Nat → Nat → Nat) (n : Node) (t : Nat) :
    ∀ (k : Nat) (q : List RpcWithDst) (ctr : Nat) (out : List (Rpc × String))
      (res : List RpcWithDst × Nat × List (Rpc × String)),
      Node.tickLoop genRange n t k q ctr out = some res → res.1.length ≤ q.length := by
  intro k
  induction k with
  | zero =>
    intro q ctr out res h
    injection h with h
    subst h
    exact le_rfl
  | succ k ih =>
    intro q ctr out res h
    simp only [Node.tickLoop] at h
    cases q with
    | cons deq rest =>
      cases hp : n.plugin with
      | some p =>
        rw [hp] at h
        dsimp only at h
        cases hpo : pluginOutputs p deq.rpc with
        | none => rw [hpo] at h; cases h
        | some outs =>
          rw [hpo] at h
          exact Nat.le_trans (ih rest ctr (out ++ outs) res h) (Nat.le_succ rest.length)
      | none =>
        rw [hp] at h
        dsimp only at h
        exact Nat.le_trans
          (ih rest ctr (out ++ [(deq.rpc, deq.destination)]) res h) (Nat.le_succ rest.length)
    | nil =>
      cases hp : n.plugin with
      | some p =>
        rw [hp] at h
        dsimp only at h
        cases hpo : pluginOutputsAll p (genStep genRange n t ctr) with
        | none => rw [hpo] at h; cases h
        | some outs =>
          rw [hpo] at h
          exact ih [] (ctr + 1) (out ++ outs) res h
      | none =>
        rw [hp] at h
        dsimp only at h
        exact ih [] (ctr + 1)
          (out ++ (genStep genRange n t ctr).map (fun rd => (rd.rpc, rd.destination))) res h

theorem tick_fields (genRange : Nat → Nat → Nat) (n : Node) (t ctr : Nat)
    (n2 : Node) (c2 : Nat) (outs : List (Rpc × String))
    (h : n.tick genRange t ctr = some (n2, c2, outs)) :
    n2.capacity = n.capacity ∧ n2.plugin = n.plugin
    ∧ n2.queue.length ≤ n.queue.length := by
  simp only [Node.tick] at h
  cases hl : Node.tickLoop genRange n t
      (min (n.queue.length + n.generation_rate) n.egress_rate) n.queue ctr [] with
  | none => rw [hl] at h; cases h
  | some res =>
    obtain ⟨q, c3, outs3⟩ := res
    rw [hl] at h
    injection h with h
    have h1 : n.setQueue q = n2 := congrArg Prod.fst h
    rw [← h1]
    exact ⟨rfl, rfl, tickLoop_queue_length genRange n t _ n.queue ctr [] (q, c3, outs3) hl⟩

theorem applyOps_queue_le (genRange : Nat → Nat → Nat) :
    ∀ (ops : List NodeOp) (n n2 : Node), n.plugin = none →
      n.queue.length ≤ n.capacity → applyOps genRange ops n = some n2 →
      n2.queue.length ≤ n2.capacity := by
  intro ops
  induction ops with
  | nil =>
    intro n n2 hp hq h
    injection h with h
    subst h
    exact hq
  | cons op rest ih =>
    intro n n2 hp hq h
    cases op with
    | recvOp r =>
      rw [applyOps] at h
      refine ih (n.recv genRange r) n2 ?_ ?_ h
      · rw [recv_plugin]; exact hp
      · rw [recv_capacity]
        exact recv_queue_le_of_no_plugin genRange n r hp hq
    | tickOp t c =>
      rw [applyOps] at h
      cases ht : n.tick genRange t c with
      | none => rw [ht] at h; cases h
      | some res =>
        obtain ⟨nt, c2, outs⟩ := res
        rw [ht] at h
        have hf := tick_fields genRange n t c nt c2 outs ht
        refine ih nt n2 ?_ ?_ h
        · rw [hf.2.1]; exact hp
        · rw [hf.1]
          exact Nat.le_trans hf.2.2 hq

/-- C6 amended: an arrival to a node whose queue is at (or beyond)
capacity is dropped with the node unchanged, and for nodes without a
plugin — one enqueued message per arrival — the queue bound
`|queue| ≤ capacity` is preserved by every sequence of recv and tick
calls.  (With a plugin the filter may emit two messages per arrival and
the bound can be exceeded, per the counterexample.) -/
theorem c6_amended_queue_bound (genRange : Nat → Nat → Nat) :
    (∀ (n : Node) (rpc : Rpc), n.capacity ≤ n.queue.length → n.recv genRange rpc = n)
    ∧ (∀ (ops : List NodeOp) (n n2 : Node), n.plugin = none →
        n.queue.length ≤ n.capacity → applyOps genRange ops n = some n2 →
        n2.queue.length ≤ n2.capacity) :=
  ⟨fun n rpc h => recv_eq_of_full genRange n rpc h, applyOps_queue_le genRange⟩

/-- C6 witness: the full-queue drop and the sequence bound at concrete
nodes. -/
theorem c6_witness :
    c6FullNode.recv zeroRange c6Rpc = c6FullNode
    ∧ (c7Node.setQueue []).queue.length ≤ (c7Node.setQueue []).capacity :=
  ⟨(c6_amended_queue_bound zeroRange).1 c6FullNode c6Rpc (by decide),
   (c6_amended_queue_bound zeroRange).2 [NodeOp.recvOp c6Rpc, NodeOp.tickOp 0 0]
     c7Node (c7Node.setQueue []) rfl (by decide) rfl⟩

/-! ### Generation and dequeue counts of Node::tick -/

theorem tickLoop_drop (genRange : Nat → Nat → Nat) (n : Node) (t : Nat)
    (hp : n.plugin = none) :
    ∀ (k : Nat) (q : List RpcWithDst) (ctr : Nat) (out : List (Rpc × String)),
      ∃ c2 outs, Node.tickLoop genRange n t k q ctr out = some (q.drop k, c2, outs) := by
  intro k
  induction k with
  | zero => intro q ctr out; exact ⟨ctr, out, rfl⟩
  | succ k ih =>
    intro q ctr out
    cases q with
    | cons d rest =>
      simp only [Node.tickLoop, hp]
      exact ih rest ctr (out ++ [(d.rpc, d.destination)])
    | nil =>
      simp only [Node.tickLoop, hp, List.drop_nil]
      have h := ih [] (ctr + 1)
        (out ++ (genStep genRange n t ctr).map (fun rd => (rd.rpc, rd.destination)))
      simpa using h

theorem genStep_eq (genRange : Nat → Nat → Nat) (n : Node) (t ctr : Nat)
    (hnb : n.neighbors ≠ []) :
    genStep genRange n t ctr
      = [⟨⟨toString t, ctr,
          ⟨[("dest", n.neighbors.getD (genRange n.seed n.neighbors.length) ""),
            ("direction", "request")], none⟩⟩,
         n.neighbors.getD (genRange n.seed n.neighbors.length) ""⟩] := by
  have hlen : 0 < n.neighbors.length := List.length_pos.2 hnb
  unfold genStep Node.route_rpc
  have hdl : idxLookup (Rpc.newRpc (toString t) ctr).headers.hs "dest" = none := rfl
  rw [hdl]
  dsimp only
  rw [if_pos hlen]
  rfl

theorem tickLoop_generate (genRange : Nat → Nat → Nat) (n : Node) (t : Nat)
    (hp : n.plugin = none) (hnb : n.neighbors ≠ [])
    (hR : ∀ s k, 0 < k → genRange s k < k) :
    ∀ (k ctr : Nat) (out : List (Rpc × String)),
      ∃ outs2, Node.tickLoop genRange n t k [] ctr out = some ([], ctr + k, out ++ outs2)
        ∧ outs2.length = k
        ∧ ∀ o ∈ outs2, o.1.data = toString t
            ∧ idxLookup o.1.headers.hs "direction" = some "request"
            ∧ o.2 ∈ n.neighbors := by
  have hlen : 0 < n.neighbors.length := List.length_pos.2 hnb
  intro k
  induction k with
  | zero =>
    intro ctr out
    exact ⟨[], by simp [Node.tickLoop], rfl, by simp⟩
  | succ k ih =>
    intro ctr out
    simp only [Node.tickLoop, hp, genStep_eq genRange n t ctr hnb,
      List.map_cons, List.map_nil]
    obtain ⟨outs2, hrec, hlen2, hprop⟩ := ih (ctr + 1)
      (out ++ [(⟨toString t, ctr,
        ⟨[("dest", n.neighbors.getD (genRange n.seed n.neighbors.length) ""),
          ("direction", "request")], none⟩⟩,
        n.neighbors.getD (genRange n.seed n.neighbors.length) "")])
    refine ⟨(⟨toString t, ctr,
        ⟨[("dest", n.neighbors.getD (genRange n.seed n.neighbors.length) ""),
          ("direction", "request")], none⟩⟩,
        n.neighbors.getD (genRange n.seed n.neighbors.length) "") :: outs2, ?_, ?_, ?_⟩
    · rw [hrec]
      have hc : ctr + 1 + k = ctr + (k + 1) := by omega
      rw [hc]
      simp
    · simp [hlen2]
    · intro o ho
      rcases List.mem_cons.1 ho with h1 | h2
      · subst h1
        refine ⟨rfl, rfl, ?_⟩
        rw [List.getD_eq_getElem?_getD,
            List.getElem?_eq_getElem (hR n.seed n.neighbors.length hlen)]
        exact List.getElem_mem (hR n.seed n.neighbors.length hlen)
      · exact hprop o h2

/-- C8 amended: `tick(t)` dequeues `min(min(queue+generation, egress),
queue)` items — the loop bound is `min(queue.len + generation_rate,
egress_rate)`, computed once — and from an empty queue on a node with
neighbors it synthesizes and emits exactly
`min(generation_rate, egress_rate)` fresh messages (not
`generation_rate`), each with payload `t` stringified, a
`direction: request` header and a neighbor destination. -/
theorem c8_amended_tick (genRange : Nat → Nat → Nat)
    (hR : ∀ s k, 0 < k → genRange s k < k) (n : Node) (t ctr : Nat)
    (hp : n.plugin = none) :
    (∃ c2 outs, n.tick genRange t ctr
        = some (n.setQueue (n.queue.drop
            (min (n.queue.length + n.generation_rate) n.egress_rate)), c2, outs))
    ∧ (n.queue = [] → n.neighbors ≠ [] →
        ∃ c2 outs, n.tick genRange t ctr = some (n.setQueue [], c2, outs)
          ∧ outs.length = min n.generation_rate n.egress_rate
          ∧ ∀ o ∈ outs, o.1.data = toString t
              ∧ idxLookup o.1.headers.hs "direction" = some "request"
              ∧ o.2 ∈ n.neighbors) := by
  constructor
  · obtain ⟨c2, outs, hl⟩ := tickLoop_drop genRange n t hp
      (min (n.queue.length + n.generation_rate) n.egress_rate) n.queue ctr []
    refine ⟨c2, outs, ?_⟩
    simp only [Node.tick]
    rw [hl]
  · intro hq hnb
    obtain ⟨outs2, hl, hlen2, hprop⟩ := tickLoop_generate genRange n t hp hnb hR
      (min n.generation_rate n.egress_rate) ctr []
    refine ⟨ctr + min n.generation_rate n.egress_rate, outs2, ?_, hlen2, hprop⟩
    simp only [Node.tick, hq, List.length_nil, Nat.zero_add]
    rw [hl]
    simp

/-- C8 witness: a node with generation rate 2 and egress rate 3
synthesizes min(2, 3) messages with the required shape. -/
theorem c8_witness :
    ∃ c2 outs, c8GenNode.tick zeroRange 7 0 = some (c8GenNode.setQueue [], c2, outs)
      ∧ outs.length = min c8GenNode.generation_rate c8GenNode.egress_rate
      ∧ ∀ o ∈ outs, o.1.data = toString 7
          ∧ idxLookup o.1.headers.hs "direction" = some "request"
          ∧ o.2 ∈ c8GenNode.neighbors :=
  (c8_amended_tick zeroRange (fun _ _ h => h) c8GenNode 7 0 rfl).2 rfl (by decide)

/-! ### merge_headers installs a unique root -/

theorem list_set_self {α : Type} :
    ∀ (l : List α) (i : Nat) (a : α), l.get? i = some a → l.set i a = l := by
  intro l
  induction l with
  | nil => intro i a h; cases h
  | cons x xs ih =>
    intro i a h
    cases i with
    | zero =>
      injection h with h
      rw [← h]
      rfl
    | succ j =>
      have := ih j a h
      simp [List.set, this]

theorem installAttr_edges (g : TraceGraph) (i : Nat) (k v : String) :
    (installAttr g i k v).edges = g.edges := by
  unfold installAttr
  cases g.nodes.get? i <;> rfl

theorem installAttr_labels (g : TraceGraph) (i : Nat) (k v : String) :
    (installAttr g i k v).nodes.map Prod.fst = g.nodes.map Prod.fst := by
  unfold installAttr
  cases hw : g.nodes.get? i with
  | none => rfl
  | some w =>
    dsimp only
    rw [List.map_set]
    apply list_set_self
    rw [List.get?_map, hw]
    rfl

theorem assign_properties_structure (fd : FerriedData) :
    (FerriedData.assign_properties fd).trace_graph.edges = fd.trace_graph.edges
    ∧ (FerriedData.assign_properties fd).trace_graph.nodes.map Prod.fst
        = fd.trace_graph.nodes.map Prod.fst := by
  unfold FerriedData.assign_properties
  dsimp only
  refine foldl_inv (fun acc : TraceGraph × List PropTriple =>
      acc.1.edges = fd.trace_graph.edges
      ∧ acc.1.nodes.map Prod.fst = fd.trace_graph.nodes.map Prod.fst)
    _ fd.unassigned_properties (fd.trace_graph, []) ⟨rfl, rfl⟩ ?_
  intro acc p _ hacc
  cases hg : get_node_with_id acc.1 p.1 with
  | some i =>
    exact ⟨(installAttr_edges acc.1 i p.2.1 p.2.2).trans hacc.1,
           (installAttr_labels acc.1 i p.2.1 p.2.2).trans hacc.2⟩
  | none => exact hacc

theorem foldl_addEdge (m : Nat) :
    ∀ (l : List Nat) (g : TraceGraph),
      (l.foldl (fun g r => addEdge g m r) g).edges = g.edges ++ l.map (fun r => (m, r))
      ∧ (l.foldl (fun g r => addEdge g m r) g).nodes = g.nodes := by
  intro l
  induction l with
  | nil => intro g; simp
  | cons r rest ih =>
    intro g
    rw [List.foldl_cons]
    refine ⟨?_, (ih (addEdge g m r)).2⟩
    rw [(ih (addEdge g m r)).1]
    simp [PGraph.addEdge]

theorem inNeighbors_length_zero_iff {α : Type} (g : PGraph α) (v : Nat) :
    (inNeighbors g v).length = 0 ↔ ∀ e ∈ g.edges, e.2 ≠ v := by
  unfold PGraph.inNeighbors
  rw [List.length_reverse, List.length_map, List.length_eq_zero]
  constructor
  · intro h e he hv
    have := (List.filter_eq_nil.1 h) e he
    apply this
    simp [hv]
  · intro h
    apply List.filter_eq_nil.2
    intro e he
    simp [h e he]

theorem roots_unique (d g2 : TraceGraph) (hwf : WF d)
    (hn : g2.nodes.length = d.nodes.length + 1)
    (he : g2.edges = d.edges ++ ((nodeIndices d).filter
        (fun r => (inNeighbors d r).length = 0)).map (fun r => (d.nodes.length, r))) :
    (nodeIndices g2).filter (fun v => (inNeighbors g2 v).length = 0)
      = [d.nodes.length] := by
  unfold PGraph.nodeIndices
  rw [hn, List.range_succ, List.filter_append]
  have h1 : (List.range d.nodes.length).filter
      (fun v => decide ((inNeighbors g2 v).length = 0)) = [] := by
    apply List.filter_eq_nil.2
    intro v hv
    have hvlt : v < d.nodes.length := List.mem_range.1 hv
    simp only [decide_eq_true_eq]
    intro hzero
    rw [inNeighbors_length_zero_iff] at hzero
    by_cases hr : (inNeighbors d v).length = 0
    · have hmem : (d.nodes.length, v) ∈ g2.edges := by
        rw [he]
        apply List.mem_append_right
        apply List.mem_map.2
        exact ⟨v, List.mem_filter.2 ⟨List.mem_range.2 hvlt, by simp [hr]⟩, rfl⟩
      exact hzero _ hmem rfl
    · rw [inNeighbors_length_zero_iff] at hr
      push_neg at hr
      obtain ⟨e, he2, hv2⟩ := hr
      exact hzero e (by rw [he]; exact List.mem_append_left _ he2) hv2
  have hnew : (inNeighbors g2 d.nodes.length).length = 0 := by
    rw [inNeighbors_length_zero_iff]
    intro e hee
    rw [he] at hee
    rcases List.mem_append.1 hee with h3 | h4
    · intro hv
      have := (hwf e h3).2
      omega
    · obtain ⟨r, hrmem, hre⟩ := List.mem_map.1 h4
      have hrlt : r < d.nodes.length :=
        List.mem_range.1 (List.mem_filter.1 hrmem).1
      intro hv
      have her : e.2 = r := by rw [← hre]
      omega
  have h2 : [d.nodes.length].filter
      (fun v => decide ((inNeighbors g2 v).length = 0)) = [d.nodes.length] := by
    simp [List.filter, hnew]
  rw [h1, h2, List.nil_append]

/-- C3: with stored data for the uid and a response direction,
`merge_headers` returns the headers with the merged FerriedData written
back: the stored graph extended by one node labelled with this
workload, an edge from the new node to every previously in-degree-zero
node, and the new node as the unique in-degree-zero node (root). -/
theorem c3_merge_headers_response (f : Filter) (uid : Nat) (h : Headers)
    (me : String) (d : FerriedData)
    (hw : f.whoami = some me)
    (hd : idxLookup f.envoy_shared_data (toString uid) = some d)
    (hdir : idxLookup h.hs "direction" = some "response")
    (hwf : WF d.trace_graph) :
    ∃ fd' : FerriedData,
      f.merge_headers uid h = some (put_ferried_data_in_hdrs fd' h)
      ∧ fd'.trace_graph.nodes.map Prod.fst
          = d.trace_graph.nodes.map Prod.fst ++ [me]
      ∧ fd'.trace_graph.edges
          = d.trace_graph.edges ++ ((nodeIndices d.trace_graph).filter
              (fun r => (inNeighbors d.trace_graph r).length = 0)).map
                (fun r => (d.trace_graph.nodes.length, r))
      ∧ (nodeIndices fd'.trace_graph).filter
          (fun v => (inNeighbors fd'.trace_graph v).length = 0)
          = [d.trace_graph.nodes.length] := by
  unfold Filter.merge_headers
  rw [hw]
  dsimp only
  rw [hd]
  dsimp only
  rw [hdir]
  dsimp only
  rw [if_pos rfl]
  refine ⟨_, rfl, ?_, ?_, ?_⟩
  · rw [(assign_properties_structure _).2]
    dsimp only
    rw [(foldl_addEdge d.trace_graph.nodes.length _ _).2]
    simp [PGraph.addNode]
  · rw [(assign_properties_structure _).1]
    dsimp only
    rw [(foldl_addEdge d.trace_graph.nodes.length _ _).1]
    rfl
  · apply roots_unique d.trace_graph _ hwf
    · have hlab : (FerriedData.assign_properties
          ⟨(((nodeIndices d.trace_graph).filter
              (fun n => (inNeighbors d.trace_graph n).length = 0)).foldl
            (fun g r => addEdge g d.trace_graph.nodes.length r)
            (addNode d.trace_graph (me, [("node.metadata.WORKLOAD_NAME", me)]))),
           d.unassigned_properties⟩).trace_graph.nodes.map Prod.fst
          = d.trace_graph.nodes.map Prod.fst ++ [me] := by
        rw [(assign_properties_structure _).2]
        dsimp only
        rw [(foldl_addEdge d.trace_graph.nodes.length _ _).2]
        simp [PGraph.addNode]
      have := congrArg List.length hlab
      simp only [List.length_map, List.length_append,
        List.length_singleton] at this
      exact this
    · rw [(assign_properties_structure _).1]
      dsimp only
      rw [(foldl_addEdge d.trace_graph.nodes.length _ _).1]
      rfl

/-- C3 witness: the concrete single-node stored graph gains `w` as its
unique root. -/
theorem c3_witness :
    ∃ fd' : FerriedData,
      c3Filter.merge_headers 5 c3Hdr = some (put_ferried_data_in_hdrs fd' c3Hdr)
      ∧ fd'.trace_graph.nodes.map Prod.fst = ["x", "w"]
      ∧ (nodeIndices fd'.trace_graph).filter
          (fun v => (inNeighbors fd'.trace_graph v).length = 0) = [1] := by
  obtain ⟨fd', h1, h2, _, h4⟩ :=
    c3_merge_headers_response c3Filter 5 c3Hdr "w" ⟨⟨[("x", [])], []⟩, []⟩
      rfl rfl rfl (by decide)
  exact ⟨fd', h1, h2, h4⟩

/-! ### on_outgoing_responses emission discipline -/

/-- C4: at the designated root service (`productpage-v1`), whenever the
merge-and-reduce pipeline succeeds, `on_outgoing_responses` emits
exactly the original message followed by a storage message — payload
the extracted value, headers src = whoami, dest = "storage",
direction = "request" — when the matcher finds a mapping and the value
extractor yields a value, and exactly the original message in every
other case (no mapping, or no extractable value). -/
theorem c4_on_outgoing_responses_emissions
    (matcher : TraceGraph → TraceGraph → Option (List (Nat × Nat)))
    (freshUid : Nat) (f : Filter) (x : Rpc)
    (hdrs : Headers) (fd2 : FerriedData) (tg : TraceGraph)
    (ho : oorFerried f x = some (hdrs, fd2, true))
    (hw : f.whoami = some "productpage-v1")
    (ht : f.target_graph = some tg) :
    (∀ m v, matcher fd2.trace_graph tg = some m →
        get_value_for_storage tg m fd2 = some (some v) →
        Filter.on_outgoing_responses matcher freshUid f x = some
          [⟨x.data, x.uid, put_ferried_data_in_hdrs fd2 hdrs⟩,
           ⟨v, freshUid, ⟨[("src", "productpage-v1"), ("dest", "storage"),
              ("direction", "request")], none⟩⟩])
    ∧ (matcher fd2.trace_graph tg = none →
        Filter.on_outgoing_responses matcher freshUid f x
          = some [⟨x.data, x.uid, put_ferried_data_in_hdrs fd2 hdrs⟩])
    ∧ (∀ m, matcher fd2.trace_graph tg = some m →
        get_value_for_storage tg m fd2 = some none →
        Filter.on_outgoing_responses matcher freshUid f x
          = some [⟨x.data, x.uid, put_ferried_data_in_hdrs fd2 hdrs⟩]) := by
  unfold Filter.on_outgoing_responses
  rw [ho]
  dsimp only
  rw [hw]
  dsimp only
  rw [if_pos (by decide : (true && ("productpage-v1" == "productpage-v1")) = true)]
  rw [ht]
  dsimp only
  refine ⟨?_, ?_, ?_⟩
  · intro m v hm hv
    rw [hm]
    dsimp only
    rw [hv]
  · intro hm
    rw [hm]
  · intro m hm hv
    rw [hm]
    dsimp only
    rw [hv]

/-- C4 witness: the concrete root-service filter emits the original
plus the storage message with payload "0" when the matcher maps pattern
node 0 to trace node 0. -/
theorem c4_witness :
    Filter.on_outgoing_responses c4Matcher 99 c4Filter c4Rpc
      = some [⟨"pay", 3, put_ferried_data_in_hdrs c4Fd2 c4Hdrs⟩,
              ⟨"0", 99, ⟨[("src", "productpage-v1"), ("dest", "storage"),
                 ("direction", "request")], none⟩⟩] :=
  (c4_on_outgoing_responses_emissions c4Matcher 99 c4Filter c4Rpc c4Hdrs c4Fd2
    create_target_graph rfl rfl rfl).1 [(0, 0)] "0" rfl rfl

end TracingSim
